import Mathlib

/-!
# Verification of the Gita Exam API (src/server.py)

Shallow embedding of the SQLite-backed exam service.  The five tables of the
schema become five lists of rows; every handler becomes a pure function
`DB → Except Err (DB × output)`.  Each request runs inside one transaction
(`get_db` commits on success and rolls back on any exception), so an `error`
result leaves the state unchanged — `afterState` realises that convention.

`init_db` runs every connection with `PRAGMA foreign_keys=ON`, so the
FOREIGN KEY clauses of the `attempts` and `answers` tables are enforced:
an INSERT (or the updated row of an upsert) whose referenced exam / question
/ option id is absent raises `sqlite3.IntegrityError`, modelled as
`Err.integrity`.  SQLite's OR IGNORE conflict resolution applies to the
PRIMARY KEY conflict only, never to FOREIGN KEY violations.

The handlers draw fresh ids from `uuid.uuid4()`; the embedding takes those
draws as extra parameters (`new_id`, `qid`, `oids`) and models the PRIMARY
KEY constraint explicitly (a colliding draw raises `Err.integrity`).
-/

deriving instance DecidableEq for Except

namespace GitaExam

structure Exam where
  id : String
  title : String
  active : Bool
  creator_id : String
deriving DecidableEq

structure Question where
  id : String
  exam_id : String
  text : String
  lang : String
deriving DecidableEq

structure ExamOption where
  id : String
  question_id : String
  text : String
  is_correct : Bool
deriving DecidableEq

structure Attempt where
  exam_id : String
  candidate_id : String
  submitted : Bool
deriving DecidableEq

structure Answer where
  exam_id : String
  candidate_id : String
  question_id : String
  option_id : String
deriving DecidableEq

structure DB where
  exams : List Exam
  questions : List Question
  options : List ExamOption
  attempts : List Attempt
  answers : List Answer
deriving DecidableEq

/-- Errors a handler can surface: an HTTPException with its status code and
detail message, or a sqlite3.IntegrityError raised by a constraint. -/
inductive Err where
  | http (code : Nat) (msg : String)
  | integrity (msg : String)
deriving DecidableEq

/-- The reserved sample-exam id seeded by `init_db`. -/
def sampleExamId : String := "exam1"

/-- State after a request: the new state on commit, the old one on rollback. -/
def afterState {α : Type} (r : Except Err (DB × α)) (s : DB) : DB :=
  match r with
  | .ok p => p.1
  | .error _ => s

/-- Did the request succeed (HTTP 200)? -/
def resOk {α : Type} (r : Except Err (DB × α)) : Bool :=
  match r with
  | .ok _ => true
  | .error _ => false

/-- SELECT * FROM exams WHERE id=? — existence of an exam row. -/
def examExists (s : DB) (e : String) : Bool :=
  s.exams.any (fun x => decide (x.id = e))

def questionExists (s : DB) (q : String) : Bool :=
  s.questions.any (fun x => decide (x.id = q))

def optionExists (s : DB) (o : String) : Bool :=
  s.options.any (fun x => decide (x.id = o))

def attemptMatches (e c : String) (a : Attempt) : Bool :=
  decide (a.exam_id = e ∧ a.candidate_id = c)

/-- SELECT * FROM attempts WHERE exam_id=? AND candidate_id=? ... fetchone() -/
def findAttempt (s : DB) (e c : String) : Option Attempt :=
  s.attempts.find? (attemptMatches e c)

/-- The `att and att["submitted"]` guard shared by load_exam / select_option,
and the `bool(att["submitted"]) if att else False` of get_state. -/
def attemptSubmitted (s : DB) (e c : String) : Bool :=
  match findAttempt s e c with
  | some a => a.submitted
  | none => false

/-- Key predicate of the answers PRIMARY KEY (exam_id, candidate_id, question_id). -/
def ansKey (e c q : String) (a : Answer) : Bool :=
  decide (a.exam_id = e ∧ a.candidate_id = c ∧ a.question_id = q)

/-- INSERT OR IGNORE INTO attempts VALUES (?, ?, 0): ignored on a PRIMARY KEY
conflict; otherwise the exam_id FOREIGN KEY is enforced. -/
def insertOrIgnoreAttempt (s : DB) (e c : String) : Except Err DB :=
  if s.attempts.any (attemptMatches e c) then .ok s
  else if examExists s e then
    .ok { s with attempts := s.attempts ++ [⟨e, c, false⟩] }
  else .error (.integrity "FOREIGN KEY constraint failed")

/-- INSERT INTO answers ... ON CONFLICT(exam_id, candidate_id, question_id)
DO UPDATE SET option_id=excluded.option_id.  On the update path only the
changed option_id column's FOREIGN KEY is (re)checked; on the insert path
all three FOREIGN KEYs are checked. -/
def upsertAnswer (s : DB) (e c q o : String) : Except Err DB :=
  if s.answers.any (ansKey e c q) then
    if optionExists s o then
      .ok { s with answers :=
        s.answers.map (fun a => if ansKey e c q a then { a with option_id := o } else a) }
    else .error (.integrity "FOREIGN KEY constraint failed")
  else
    if examExists s e && questionExists s q && optionExists s o then
      .ok { s with answers := s.answers ++ [⟨e, c, q, o⟩] }
    else .error (.integrity "FOREIGN KEY constraint failed")

/-- GET /exam/\x7bexam_id\x7d/state response model. -/
structure StateOut where
  answers : List (String × String)
  submitted : Bool
deriving DecidableEq

/-- GET /exam/\x7bexam_id\x7d/state (get_state): the candidate's own saved
answers and the submitted flag.  The Python dict comprehension becomes an
association list keyed by question_id. -/
def get_state (exam_id candidate_id : String) (s : DB) : StateOut :=
  { answers :=
      (s.answers.filter
        (fun a => decide (a.exam_id = exam_id ∧ a.candidate_id = candidate_id))).map
        (fun a => (a.question_id, a.option_id)),
    submitted := attemptSubmitted s exam_id candidate_id }

structure OptionOut where
  id : String
  text : String
deriving DecidableEq

structure QuestionOut where
  id : String
  text : String
  options : List OptionOut
deriving DecidableEq

structure ExamWithQuestionsOut where
  exam : Exam
  questions : List QuestionOut
deriving DecidableEq

/-- GET /exam/\x7bexam_id\x7d (load_exam): 403 if this candidate's attempt is
submitted, 404 if the exam is absent, else the exam with its questions and
options (id and text only — never is_correct). -/
def load_exam (exam_id candidate_id : String) (s : DB) :
    Except Err (DB × ExamWithQuestionsOut) :=
  if attemptSubmitted s exam_id candidate_id then
    .error (.http 403 "Exam already submitted")
  else
    match s.exams.find? (fun x => decide (x.id = exam_id)) with
    | none => .error (.http 404 "Exam not found")
    | some exam =>
      .ok (s,
        { exam := exam,
          questions :=
            (s.questions.filter (fun q => decide (q.exam_id = exam_id))).map
              (fun q =>
                { id := q.id, text := q.text,
                  options :=
                    (s.options.filter (fun o => decide (o.question_id = q.id))).map
                      (fun o => ({ id := o.id, text := o.text } : OptionOut)) }) })

/-- POST /exam (create_exam).  `new_id` stands for str(uuid.uuid4())[:6];
the INSERT enforces the exams PRIMARY KEY. -/
def create_exam (title : String) (new_id : String) (candidate_id : String) (s : DB) :
    Except Err (DB × String) :=
  if 25 ≤ (s.exams.filter (fun x => decide (x.creator_id = candidate_id))).length then
    .error (.http 400 "Exam creation limit reached (25)")
  else if s.exams.any (fun x => decide (x.id = new_id)) then
    .error (.integrity "UNIQUE constraint failed")
  else
    .ok ({ s with exams := s.exams ++ [⟨new_id, title, false, candidate_id⟩] }, new_id)

/-- One option of the add-question request body. -/
structure OptionIn where
  text : String
  is_correct : Bool
deriving DecidableEq

/-- The `for opt in req.options` insert loop of add_question_with_options;
each INSERT enforces the options PRIMARY KEY and the question_id FOREIGN KEY. -/
def insertOptionsLoop : List (String × OptionIn) → String → DB → Except Err DB
  | [], _, s => .ok s
  | (oid, opt) :: rest, qid, s =>
    if s.options.any (fun x => decide (x.id = oid)) then
      .error (.integrity "UNIQUE constraint failed")
    else if questionExists s qid then
      insertOptionsLoop rest qid
        { s with options := s.options ++ [⟨oid, qid, opt.text, opt.is_correct⟩] }
    else .error (.integrity "FOREIGN KEY constraint failed")

/-- POST /exam/\x7bexam_id\x7d/questions (add_question_with_options).
`qid` and `oids` stand for the uuid4 draws; all checks mirror the source's
order: sample guard, option-count and correctness validation, question
limit, exam existence, then the atomic inserts. -/
def add_question_with_options (exam_id : String) (text lang : String)
    (opts : List OptionIn) (qid : String) (oids : List String)
    (candidate_id : String) (s : DB) : Except Err (DB × String) :=
  if exam_id = sampleExamId then
    .error (.http 400 "Modifications to the sample exam are not allowed")
  else if opts.length < 2 then
    .error (.http 400 "A question must have at least 2 options")
  else if 6 < opts.length then
    .error (.http 400 "A question can have at most 6 options")
  else if !(opts.any (fun o => o.is_correct)) then
    .error (.http 400 "At least one option must be marked as correct")
  else if 25 ≤ (s.questions.filter (fun q => decide (q.exam_id = exam_id))).length then
    .error (.http 400 "Question limit reached for this exam (25)")
  else if !(examExists s exam_id) then
    .error (.http 404 "Exam not found")
  else if s.questions.any (fun x => decide (x.id = qid)) then
    .error (.integrity "UNIQUE constraint failed")
  else
    match insertOptionsLoop (oids.zip opts) qid
        { s with questions := s.questions ++ [⟨qid, exam_id, text, lang⟩] } with
    | .error err => .error err
    | .ok s2 => .ok (s2, qid)

/-- DELETE /questions/\x7bquestion_id\x7d (delete_question): looks up the
question's exam_id (404 if absent), rejects the sample exam, re-selects the
question row (the source's redundant second fetch), then deletes the
answers, options and question rows for it. -/
def delete_question (question_id : String) (candidate_id : String) (s : DB) :
    Except Err (DB × String) :=
  match s.questions.find? (fun x => decide (x.id = question_id)) with
  | none => .error (.http 404 "Question not found")
  | some row =>
    if row.exam_id = sampleExamId then
      .error (.http 400 "Modifications to the sample exam are not allowed")
    else
      match s.questions.find? (fun x => decide (x.id = question_id)) with
      | none => .error (.http 404 "Question not found")
      | some _ =>
        .ok ({ s with
          answers := s.answers.filter (fun a => !(decide (a.question_id = question_id))),
          options := s.options.filter (fun o => !(decide (o.question_id = question_id))),
          questions := s.questions.filter (fun q => !(decide (q.id = question_id))) },
          "deleted")

/-- POST /exam/\x7bexam_id\x7d/activate (activate_exam): rejects the sample
exam, then UPDATE exams SET active=0 followed by UPDATE exams SET active=1
WHERE id=?.  No existence or ownership check. -/
def activate_exam (exam_id : String) (candidate_id : String) (s : DB) :
    Except Err (DB × String) :=
  if exam_id = sampleExamId then
    .error (.http 400 "Modifications to the sample exam are not allowed")
  else
    let cleared := s.exams.map (fun x => { x with active := false })
    let flagged := cleared.map
      (fun x => if x.id = exam_id then { x with active := true } else x)
    .ok ({ s with exams := flagged }, "activated")

/-- POST /exam/\x7bexam_id\x7d/select (select_option): sample guard, 403 if
the attempt is submitted, lazy attempt creation, then the answer upsert. -/
def select_option (exam_id question_id option_id candidate_id : String) (s : DB) :
    Except Err (DB × String) :=
  if exam_id = sampleExamId then
    .error (.http 400 "Modifications to the sample exam are not allowed")
  else if attemptSubmitted s exam_id candidate_id then
    .error (.http 403 "Exam already submitted")
  else
    match insertOrIgnoreAttempt s exam_id candidate_id with
    | .error err => .error err
    | .ok s1 =>
      match upsertAnswer s1 exam_id candidate_id question_id option_id with
      | .error err => .error err
      | .ok s2 => .ok (s2, "saved")

/-- POST /exam/\x7bexam_id\x7d/submit (submit_exam): sample guard, lazy
attempt creation, then UPDATE attempts SET submitted=1 for the pair. -/
def submit_exam (exam_id candidate_id : String) (s : DB) :
    Except Err (DB × String) :=
  if exam_id = sampleExamId then
    .error (.http 400 "Modifications to the sample exam are not allowed")
  else
    match insertOrIgnoreAttempt s exam_id candidate_id with
    | .error err => .error err
    | .ok s1 =>
      .ok ({ s1 with attempts :=
        s1.attempts.map (fun a =>
          if attemptMatches exam_id candidate_id a then { a with submitted := true } else a) },
        "submitted")

/-- Number of rows matching SELECT * FROM exams WHERE active=1. -/
def countActive (s : DB) : Nat :=
  (s.exams.filter (fun x => x.active)).length

/-- One activate_exam request viewed as a state transformer. -/
def activateStep (p : String × String) (s : DB) : DB :=
  afterState (activate_exam p.1 p.2 s) s

/-- A sequence of activate_exam requests. -/
def applyActivations (calls : List (String × String)) (s : DB) : DB :=
  calls.foldl (fun s p => activateStep p s) s

/-- State after one select_option request. -/
def selStep (e q o c : String) (s : DB) : DB :=
  afterState (select_option e q o c s) s

/-- State after one submit_exam request. -/
def subStep (e c : String) (s : DB) : DB :=
  afterState (submit_exam e c s) s

/-- The sample exam's question rows (questions with exam_id = "exam1"). -/
def sampleQs (s : DB) : List Question :=
  s.questions.filter (fun q => decide (q.exam_id = sampleExamId))

/-- Is option row `o` attached to a sample-exam question of state `s`? -/
def isSampleOpt (s : DB) (o : ExamOption) : Bool :=
  s.questions.any (fun qu => decide (qu.id = o.question_id ∧ qu.exam_id = sampleExamId))

/-- The sample exam's option rows. -/
def sampleOpts (s : DB) : List ExamOption :=
  s.options.filter (isSampleOpt s)

/-- State after one delete_question request. -/
def delStep (q c : String) (s : DB) : DB :=
  afterState (delete_question q c s) s

/-! ## Basic lemmas about activation -/

/-- The state produced by a successful activate_exam: the two UPDATE
statements compose into one pass setting each exam's flag to (id = e). -/
def setFlag (e : String) (s : DB) : DB :=
  { s with exams := s.exams.map (fun x => { x with active := decide (x.id = e) }) }

lemma activate_exam_ok (e c : String) (s : DB) (hs : e ≠ sampleExamId) :
    activate_exam e c s = .ok (setFlag e s, "activated") := by
  have hmap :
      (fun x : Exam => if x.id = e then { x with active := true } else x) ∘
        (fun x : Exam => { x with active := false }) =
      fun x : Exam => { x with active := decide (x.id = e) } := by
    funext x
    by_cases h : x.id = e <;> simp [h]
  simp only [activate_exam, if_neg hs, List.map_map, hmap, setFlag]

lemma activateStep_of_ne (e c : String) (s : DB) (hs : e ≠ sampleExamId) :
    activateStep (e, c) s = setFlag e s := by
  simp [activateStep, afterState, activate_exam_ok e c s hs]

lemma activateStep_of_sample (c : String) (s : DB) :
    activateStep (sampleExamId, c) s = s := by
  simp [activateStep, activate_exam, afterState]

lemma countActive_map_flag (l : List Exam) (e : String) :
    ((l.map (fun x => { x with active := decide (x.id = e) })).filter
      (fun x => x.active)).length = (l.filter (fun x => decide (x.id = e))).length := by
  induction l with
  | nil => rfl
  | cons a t ih =>
    by_cases h : a.id = e <;> simp [h, List.filter_cons, ih]

lemma activateStep_exams_ids (p : String × String) (s : DB) :
    (activateStep p s).exams.map (fun x => x.id) = s.exams.map (fun x => x.id) := by
  obtain ⟨e, c⟩ := p
  by_cases hs : e = sampleExamId
  · subst hs; rw [activateStep_of_sample]
  · rw [activateStep_of_ne e c s hs]
    simp [setFlag]

lemma length_filter_id_le_one (l : List Exam) (e : String)
    (hnd : (l.map (fun x => x.id)).Nodup) :
    (l.filter (fun x => decide (x.id = e))).length ≤ 1 := by
  induction l with
  | nil => simp
  | cons a t ih =>
    simp only [List.map_cons, List.nodup_cons] at hnd
    by_cases h : a.id = e
    · have ht : t.filter (fun x => decide (x.id = e)) = [] := by
        rw [List.filter_eq_nil_iff]
        intro x hx hxe
        simp only [decide_eq_true_eq] at hxe
        exact hnd.1 (h ▸ hxe ▸ List.mem_map_of_mem (fun y => y.id) hx)
      simp [List.filter_cons, h, ht]
    · simpa [List.filter_cons, h] using ih hnd.2

lemma length_filter_id_pos (l : List Exam) (e : String)
    (hex : ∃ x ∈ l, x.id = e) :
    0 < (l.filter (fun x => decide (x.id = e))).length := by
  obtain ⟨x, hx, hxe⟩ := hex
  exact List.length_pos_of_mem (List.mem_filter.2 ⟨hx, by simp [hxe]⟩)

lemma examExists_iff (s : DB) (e : String) :
    examExists s e = true ↔ ∃ x ∈ s.exams, x.id = e := by
  simp [examExists]

lemma countActive_activateStep_le (p : String × String) (s : DB)
    (hnd : (s.exams.map (fun x => x.id)).Nodup) (h1 : countActive s ≤ 1) :
    countActive (activateStep p s) ≤ 1 := by
  obtain ⟨e, c⟩ := p
  by_cases hs : e = sampleExamId
  · subst hs; rwa [activateStep_of_sample]
  · rw [activateStep_of_ne e c s hs]
    simpa [countActive, setFlag, countActive_map_flag] using
      length_filter_id_le_one s.exams e hnd

lemma applyActivations_exams_ids (calls : List (String × String)) (s : DB) :
    (applyActivations calls s).exams.map (fun x => x.id) = s.exams.map (fun x => x.id) := by
  induction calls generalizing s with
  | nil => rfl
  | cons p t ih =>
    simp only [applyActivations, List.foldl_cons]
    rw [show (List.foldl (fun s p => activateStep p s) (activateStep p s) t)
      = applyActivations t (activateStep p s) from rfl]
    rw [ih, activateStep_exams_ids]

lemma applyActivations_cons (p : String × String) (t : List (String × String)) (s : DB) :
    applyActivations (p :: t) s = applyActivations t (activateStep p s) := rfl

lemma countActive_applyActivations_le (calls : List (String × String)) (s : DB)
    (hnd : (s.exams.map (fun x => x.id)).Nodup) (h1 : countActive s ≤ 1) :
    countActive (applyActivations calls s) ≤ 1 := by
  induction calls generalizing s with
  | nil => exact h1
  | cons p t ih =>
    rw [applyActivations_cons]
    have hnd' : ((activateStep p s).exams.map (fun x => x.id)).Nodup := by
      rw [activateStep_exams_ids]; exact hnd
    exact ih _ hnd' (countActive_activateStep_le p s hnd h1)

/-! ## Concrete states used by witnesses and counterexamples -/

/-- The freshly seeded store reduced to its exams table: only the sample
exam, seeded active. -/
def dbSeed : DB :=
  ⟨[⟨"exam1", "Sample Exam", true, "test_candidate"⟩], [], [], [], []⟩

/-- Seeded store plus one candidate-created draft exam "e2". -/
def dbTwo : DB :=
  ⟨[⟨"exam1", "Sample Exam", true, "test_candidate"⟩, ⟨"e2", "T", false, "cand"⟩],
   [], [], [], []⟩

/-- A populated store: sample exam plus a draft exam "e2" with one question
"q1" (options "o1"/"o2"), a sample question "qs" with options, and answers
saved by two other candidates. -/
def dbFull : DB :=
  ⟨[⟨"exam1", "Sample Exam", true, "test_candidate"⟩, ⟨"e2", "T", false, "cand"⟩],
   [⟨"q1", "e2", "What is 2+2?", "en"⟩, ⟨"qs", "exam1", "What is 2+2?", "en"⟩],
   [⟨"o1", "q1", "3", false⟩, ⟨"o2", "q1", "4", true⟩, ⟨"os", "qs", "4", true⟩],
   [],
   [⟨"e2", "alice", "q1", "o1"⟩, ⟨"e2", "bob", "q1", "o2"⟩]⟩

/-! ## C1: the single-active-exam property -/

/-- C1 counterexample: from the seeded state (one active exam), an
activate_exam call with an id not present in the exams table succeeds, yet
afterwards zero exams are active — the claim's "after each call exactly one
exam has active=true" is false for this call. -/
theorem activate_missing_id_breaks_single_active :
    countActive dbSeed = 1 ∧
    resOk (activate_exam "zzz" "c" dbSeed) = true ∧
    countActive (activateStep ("zzz", "c") dbSeed) = 0 := by
  decide

/-- C1 (amended): over any sequence of activate_exam calls from a state with
unique exam ids and at most one active exam, at most one exam is ever active
(never two); a call whose exam id exists (and is not the sample exam)
leaves exactly one exam active, namely the activated one. -/
theorem single_active_at_most_one (s : DB) (calls : List (String × String))
    (e c : String)
    (hnd : (s.exams.map (fun x => x.id)).Nodup) (h1 : countActive s ≤ 1) :
    countActive (applyActivations calls s) ≤ 1 ∧
    (e ≠ sampleExamId → examExists (applyActivations calls s) e = true →
      countActive (activateStep (e, c) (applyActivations calls s)) = 1 ∧
      (activateStep (e, c) (applyActivations calls s)).exams.all
        (fun x => !x.active || decide (x.id = e)) = true) := by
  have hndA : ((applyActivations calls s).exams.map (fun x => x.id)).Nodup := by
    rw [applyActivations_exams_ids]; exact hnd
  refine ⟨countActive_applyActivations_le calls s hnd h1, fun hse hex => ?_⟩
  rw [activateStep_of_ne e c _ hse]
  constructor
  · have hle := length_filter_id_le_one (applyActivations calls s).exams e hndA
    have hpos := length_filter_id_pos (applyActivations calls s).exams e
      ((examExists_iff _ e).1 hex)
    have : countActive (setFlag e (applyActivations calls s)) =
        ((applyActivations calls s).exams.filter (fun x => decide (x.id = e))).length := by
      simp [countActive, setFlag, countActive_map_flag]
    omega
  · rw [List.all_eq_true]
    intro x hx
    simp only [setFlag, List.mem_map] at hx
    obtain ⟨y, _, rfl⟩ := hx
    by_cases h : y.id = e <;> simp [h]

/-- C1 amended-claim witness at a concrete state and call sequence. -/
theorem single_active_at_most_one_witness :
    countActive (applyActivations [("e2", "c")] dbTwo) ≤ 1 ∧
    countActive (activateStep ("e2", "c") (applyActivations [("e2", "c")] dbTwo)) = 1 := by
  have h := single_active_at_most_one dbTwo [("e2", "c")] "e2" "c" (by decide) (by decide)
  exact ⟨h.1, (h.2 (by decide) (by decide)).1⟩

/-! ## C9: activating a nonexistent exam -/

/-- C9: activate_exam on an exam id absent from the exams table (and not the
sample id) succeeds with status "activated" and leaves every exam with
active=false. -/
theorem activate_missing_exam_deactivates_all (e c : String) (s : DB)
    (hs : e ≠ sampleExamId) (habs : ∀ x ∈ s.exams, x.id ≠ e) :
    activate_exam e c s = .ok (activateStep (e, c) s, "activated") ∧
    (activateStep (e, c) s).exams.all (fun x => !x.active) = true := by
  rw [activateStep_of_ne e c s hs]
  refine ⟨activate_exam_ok e c s hs, ?_⟩
  rw [List.all_eq_true]
  intro x hx
  simp only [setFlag, List.mem_map] at hx
  obtain ⟨y, hy, rfl⟩ := hx
  simp [habs y hy]

/-- C9 witness at the seeded state. -/
theorem activate_missing_exam_deactivates_all_witness :
    activate_exam "zzz" "c" dbSeed = .ok (activateStep ("zzz", "c") dbSeed, "activated") ∧
    (activateStep ("zzz", "c") dbSeed).exams.all (fun x => !x.active) = true :=
  activate_missing_exam_deactivates_all "zzz" "c" dbSeed (by decide) (by decide)

/-! ## C10: no ownership check on activate / delete -/

/-- C10: activate_exam and delete_question never consult the calling
candidate: the full result (outcome and state effect) is identical for any
two authenticated callers, on every state, exam id and question id. -/
theorem activate_delete_ignore_caller (s : DB) (e qid c1 c2 : String) :
    activate_exam e c1 s = activate_exam e c2 s ∧
    delete_question qid c1 s = delete_question qid c2 s :=
  ⟨rfl, rfl⟩

/-! ## Lemmas about attempts: lazy creation and the submitted flag -/

lemma ioa_ok_parts {s s1 : DB} {e c : String}
    (h : insertOrIgnoreAttempt s e c = .ok s1) :
    s1.exams = s.exams ∧ s1.questions = s.questions ∧ s1.options = s.options ∧
    s1.answers = s.answers ∧ s1.attempts.any (attemptMatches e c) = true ∧
    (∀ a ∈ s1.attempts, a ∈ s.attempts ∨ a = ⟨e, c, false⟩) := by
  unfold insertOrIgnoreAttempt at h
  by_cases hp : s.attempts.any (attemptMatches e c) = true
  · rw [if_pos hp] at h
    have h' := Except.ok.inj h
    subst h'
    exact ⟨rfl, rfl, rfl, rfl, hp, fun a ha => Or.inl ha⟩
  · rw [if_neg hp] at h
    by_cases hex : examExists s e = true
    · rw [if_pos hex] at h
      have h' := Except.ok.inj h
      subst h'
      refine ⟨rfl, rfl, rfl, rfl, ?_, ?_⟩
      · simp [attemptMatches]
      · intro a ha
        rcases List.mem_append.1 ha with ha | ha
        · exact Or.inl ha
        · simp only [List.mem_singleton] at ha
          exact Or.inr ha
    · rw [if_neg hex] at h
      exact Except.noConfusion h

lemma ioa_ok_of (s : DB) (e c : String)
    (h : s.attempts.any (attemptMatches e c) = true ∨ examExists s e = true) :
    ∃ s1, insertOrIgnoreAttempt s e c = .ok s1 := by
  unfold insertOrIgnoreAttempt
  by_cases hp : s.attempts.any (attemptMatches e c) = true
  · rw [if_pos hp]; exact ⟨s, rfl⟩
  · rw [if_neg hp]
    rcases h with h | h
    · exact absurd h hp
    · rw [if_pos h]; exact ⟨_, rfl⟩

lemma attemptMatches_set_submitted (e c : String) (a : Attempt) :
    attemptMatches e c { a with submitted := true } = attemptMatches e c a := rfl

/-- The UPDATE attempts SET submitted=1 WHERE exam_id=? AND candidate_id=?
statement of submit_exam, as a state transformer. -/
def markSubmitted (e c : String) (s : DB) : DB :=
  { s with attempts := s.attempts.map (fun a => if attemptMatches e c a then { a with submitted := true } else a) }

lemma find_after_set_submitted (l : List Attempt) (e c : String)
    (hany : l.any (attemptMatches e c) = true) :
    (l.map (fun a => if attemptMatches e c a then { a with submitted := true } else a)).find?
      (attemptMatches e c) = some ⟨e, c, true⟩ := by
  induction l with
  | nil => simp at hany
  | cons a t ih =>
    by_cases hm : attemptMatches e c a = true
    · have hfields : ({ a with submitted := true } : Attempt) = ⟨e, c, true⟩ := by
        have hm' := hm
        simp only [attemptMatches, decide_eq_true_eq] at hm'
        cases a
        simp_all
      simp only [List.map_cons, if_pos hm]
      rw [List.find?_cons_of_pos _ (by rwa [attemptMatches_set_submitted]), hfields]
    · simp only [List.any_cons, hm, Bool.false_or] at hany
      simp only [List.map_cons, if_neg hm]
      rw [List.find?_cons_of_neg _ hm]
      exact ih hany

/-- A successful submit, characterized: it commits, returns "submitted",
touches only the attempts table, and afterwards the pair's attempt row
reads as submitted. -/
lemma submit_exam_ok_of (e c : String) (s : DB) (hs : e ≠ sampleExamId)
    (hok : s.attempts.any (attemptMatches e c) = true ∨ examExists s e = true) :
    submit_exam e c s = .ok (subStep e c s, "submitted") ∧
    (subStep e c s).exams = s.exams ∧ (subStep e c s).questions = s.questions ∧
    (subStep e c s).options = s.options ∧ (subStep e c s).answers = s.answers ∧
    attemptSubmitted (subStep e c s) e c = true ∧
    (subStep e c s).attempts.any (attemptMatches e c) = true := by
  obtain ⟨s1, h1⟩ := ioa_ok_of s e c hok
  obtain ⟨hex, hq, ho, ha, hany, _⟩ := ioa_ok_parts h1
  have hsubmit : submit_exam e c s = .ok (markSubmitted e c s1, "submitted") := by
    unfold submit_exam
    simp only [if_neg hs, h1, markSubmitted]
  have hstep : subStep e c s = markSubmitted e c s1 := by
    simp [subStep, afterState, hsubmit]
  have hfind := find_after_set_submitted s1.attempts e c hany
  refine ⟨by rw [hsubmit, hstep], by rw [hstep]; exact hex, by rw [hstep]; exact hq,
    by rw [hstep]; exact ho, by rw [hstep]; exact ha, ?_, ?_⟩
  · rw [hstep]
    simp only [markSubmitted, attemptSubmitted, findAttempt]
    rw [hfind]
  · rw [hstep]
    exact List.any_eq_true.2 ⟨⟨e, c, true⟩, List.mem_of_find?_eq_some hfind,
      List.find?_some hfind⟩

/-- Any successful submit implies a non-sample exam id and a submitted
attempt row in the committed state. -/
lemma submit_ok_inv {e c : String} {s s' : DB} {out : String}
    (h : submit_exam e c s = .ok (s', out)) :
    e ≠ sampleExamId ∧ out = "submitted" ∧ attemptSubmitted s' e c = true := by
  unfold submit_exam at h
  by_cases hs : e = sampleExamId
  · rw [if_pos hs] at h; exact Except.noConfusion h
  · rw [if_neg hs] at h
    cases hioa : insertOrIgnoreAttempt s e c with
    | error err => rw [hioa] at h; exact Except.noConfusion h
    | ok s1 =>
      rw [hioa] at h
      have hpair : (markSubmitted e c s1, "submitted") = (s', out) := Except.ok.inj h
      have hst : markSubmitted e c s1 = s' := congrArg Prod.fst hpair
      have hout : "submitted" = out := congrArg Prod.snd hpair
      obtain ⟨_, _, _, _, hany, _⟩ := ioa_ok_parts hioa
      refine ⟨hs, hout.symm, ?_⟩
      rw [← hst]
      simp only [markSubmitted, attemptSubmitted, findAttempt]
      rw [find_after_set_submitted s1.attempts e c hany]

/-! ## C3: submission locks saving and loading -/

/-- C3: once submit_exam has succeeded for (exam, candidate), any
select_option for that pair fails with 403 Forbidden, and load_exam for
that pair fails with 403 Forbidden. -/
theorem submission_locks_save_and_load (e c q o : String) (s s' : DB) (out : String)
    (h : submit_exam e c s = .ok (s', out)) :
    select_option e q o c s' = .error (.http 403 "Exam already submitted") ∧
    load_exam e c s' = .error (.http 403 "Exam already submitted") := by
  obtain ⟨hs, _, hsub⟩ := submit_ok_inv h
  constructor
  · unfold select_option
    rw [if_neg hs, hsub]
    simp
  · unfold load_exam
    rw [hsub]
    simp

/-- C3 witness: submit on the populated store, then both follow-ups are 403. -/
theorem submission_locks_save_and_load_witness :
    select_option "e2" "q1" "o1" "cand" (subStep "e2" "cand" dbFull) =
      .error (.http 403 "Exam already submitted") ∧
    load_exam "e2" "cand" (subStep "e2" "cand" dbFull) =
      .error (.http 403 "Exam already submitted") :=
  submission_locks_save_and_load "e2" "cand" "q1" "o1" dbFull
    (subStep "e2" "cand" dbFull) "submitted" (by decide)

/-! ## C7: submission is idempotent -/

/-- C7: for an existing non-sample exam, submitting twice in a row succeeds
both times and leaves the attempt row submitted. -/
theorem submit_idempotent (e c : String) (s : DB)
    (hs : e ≠ sampleExamId) (hex : examExists s e = true) :
    submit_exam e c s = .ok (subStep e c s, "submitted") ∧
    submit_exam e c (subStep e c s) = .ok (subStep e c (subStep e c s), "submitted") ∧
    attemptSubmitted (subStep e c (subStep e c s)) e c = true := by
  have h1 := submit_exam_ok_of e c s hs (Or.inr hex)
  have h2 := submit_exam_ok_of e c (subStep e c s) hs (Or.inl h1.2.2.2.2.2.2)
  exact ⟨h1.1, h2.1, h2.2.2.2.2.2.1⟩

/-- C7 witness on the populated store. -/
theorem submit_idempotent_witness :
    submit_exam "e2" "cand" dbFull = .ok (subStep "e2" "cand" dbFull, "submitted") ∧
    submit_exam "e2" "cand" (subStep "e2" "cand" dbFull) =
      .ok (subStep "e2" "cand" (subStep "e2" "cand" dbFull), "submitted") ∧
    attemptSubmitted (subStep "e2" "cand" (subStep "e2" "cand" dbFull)) "e2" "cand" = true :=
  submit_idempotent "e2" "cand" dbFull (by decide) (by decide)

/-! ## Lemmas about the answer upsert -/

lemma examExists_congr {s s' : DB} (h : s'.exams = s.exams) (e : String) :
    examExists s' e = examExists s e := by
  unfold examExists; rw [h]

lemma questionExists_congr {s s' : DB} (h : s'.questions = s.questions) (q : String) :
    questionExists s' q = questionExists s q := by
  unfold questionExists; rw [h]

lemma optionExists_congr {s s' : DB} (h : s'.options = s.options) (o : String) :
    optionExists s' o = optionExists s o := by
  unfold optionExists; rw [h]

lemma ansKey_fields {e c q : String} {a : Answer} (h : ansKey e c q a = true) :
    a.exam_id = e ∧ a.candidate_id = c ∧ a.question_id = q := by
  simpa [ansKey] using h

lemma filter_upsert_map (l : List Answer) (e c q o : String) :
    (l.map (fun a => if ansKey e c q a then { a with option_id := o } else a)).filter
      (ansKey e c q) = List.replicate ((l.filter (ansKey e c q)).length) ⟨e, c, q, o⟩ := by
  induction l with
  | nil => rfl
  | cons a t ih =>
    by_cases hm : ansKey e c q a = true
    · obtain ⟨h1, h2, h3⟩ := ansKey_fields hm
      have hrow : ({ a with option_id := o } : Answer) = ⟨e, c, q, o⟩ := by
        cases a; simp_all
      have hkey : ansKey e c q (⟨e, c, q, o⟩ : Answer) = true := by simp [ansKey]
      simp [List.map_cons, if_pos hm, List.filter_cons, hkey, hm, ih, hrow,
        List.replicate_succ]
    · simp [List.map_cons, if_neg hm, List.filter_cons, hm, ih]

lemma upsert_ok_char (s1 : DB) (e c q o : String)
    (hex : examExists s1 e = true) (hq : questionExists s1 q = true)
    (ho : optionExists s1 o = true)
    (hle : (s1.answers.filter (ansKey e c q)).length ≤ 1) :
    ∃ s2, upsertAnswer s1 e c q o = .ok s2 ∧ s2.exams = s1.exams ∧
      s2.questions = s1.questions ∧ s2.options = s1.options ∧
      s2.attempts = s1.attempts ∧
      s2.answers.filter (ansKey e c q) = [⟨e, c, q, o⟩] := by
  by_cases hk : s1.answers.any (ansKey e c q) = true
  · refine ⟨{ s1 with answers := s1.answers.map (fun a => if ansKey e c q a then { a with option_id := o } else a) },
      by unfold upsertAnswer; rw [if_pos hk, if_pos ho], rfl, rfl, rfl, rfl, ?_⟩
    have hpos : 0 < (s1.answers.filter (ansKey e c q)).length := by
      obtain ⟨a, ha, hpa⟩ := List.any_eq_true.1 hk
      exact List.length_pos_of_mem (List.mem_filter.2 ⟨ha, hpa⟩)
    have hone : (s1.answers.filter (ansKey e c q)).length = 1 := by omega
    show (s1.answers.map (fun a => if ansKey e c q a then { a with option_id := o } else a)).filter (ansKey e c q) = _
    rw [filter_upsert_map, hone]
    rfl
  · have hcond : (examExists s1 e && questionExists s1 q && optionExists s1 o) = true := by
      rw [hex, hq, ho]; rfl
    refine ⟨{ s1 with answers := s1.answers ++ [⟨e, c, q, o⟩] },
      by unfold upsertAnswer; rw [if_neg hk, if_pos hcond], rfl, rfl, rfl, rfl, ?_⟩
    have hnil : s1.answers.filter (ansKey e c q) = [] := by
      rw [List.filter_eq_nil_iff]
      intro a ha hpa
      exact hk (List.any_eq_true.2 ⟨a, ha, hpa⟩)
    show (s1.answers ++ [(⟨e, c, q, o⟩ : Answer)]).filter (ansKey e c q) = _
    rw [List.filter_append, hnil]
    simp [ansKey]

/-- A successful select_option, characterized: it commits with "saved",
touches only attempts and answers, never marks an attempt submitted, and
leaves exactly one stored answer row for the (exam, candidate, question)
key, holding the option just saved. -/
lemma select_exam_ok (e q o c : String) (s : DB)
    (hs : e ≠ sampleExamId)
    (hex : examExists s e = true) (hq : questionExists s q = true)
    (ho : optionExists s o = true)
    (hatt : ∀ a ∈ s.attempts, attemptMatches e c a = true → a.submitted = false)
    (hans : (s.answers.filter (ansKey e c q)).length ≤ 1) :
    select_option e q o c s = .ok (selStep e q o c s, "saved") ∧
    (selStep e q o c s).exams = s.exams ∧
    (selStep e q o c s).questions = s.questions ∧
    (selStep e q o c s).options = s.options ∧
    (∀ a ∈ (selStep e q o c s).attempts, attemptMatches e c a = true → a.submitted = false) ∧
    (selStep e q o c s).answers.filter (ansKey e c q) = [⟨e, c, q, o⟩] := by
  have hsub : attemptSubmitted s e c = false := by
    unfold attemptSubmitted findAttempt
    cases hfind : s.attempts.find? (attemptMatches e c) with
    | none => rfl
    | some a =>
      exact hatt a (List.mem_of_find?_eq_some hfind) (List.find?_some hfind)
  obtain ⟨s1, h1⟩ := ioa_ok_of s e c (Or.inr hex)
  obtain ⟨hex1, hq1, ho1, ha1, hany1, hmem1⟩ := ioa_ok_parts h1
  have hatt1 : ∀ a ∈ s1.attempts, attemptMatches e c a = true → a.submitted = false := by
    intro a ha hma
    rcases hmem1 a ha with h | h
    · exact hatt a h hma
    · rw [h]
  obtain ⟨s2, h2, hex2, hq2, ho2, hat2, hfil2⟩ :=
    upsert_ok_char s1 e c q o
      (by rw [examExists_congr hex1]; exact hex)
      (by rw [questionExists_congr hq1]; exact hq)
      (by rw [optionExists_congr ho1]; exact ho)
      (by rw [ha1]; exact hans)
  have hsel : select_option e q o c s = .ok (s2, "saved") := by
    unfold select_option
    rw [if_neg hs, hsub]
    simp [h1, h2]
  have hstep : selStep e q o c s = s2 := by
    simp [selStep, afterState, hsel]
  rw [hstep]
  refine ⟨by rw [hsel], by rw [hex2, hex1], by rw [hq2, hq1], by rw [ho2, ho1], ?_, hfil2⟩
  intro a ha hma
  rw [hat2] at ha
  exact hatt1 a ha hma

/-! ## C4: answer saving is last-write-wins and idempotent -/

/-- C4: with the attempt not submitted (and the exam, question and options
existing, exam not the sample), saving option o1, then o2, then o2 again
succeeds each time and leaves exactly one stored answer row for the
(exam, candidate, question) key, holding o2. -/
theorem save_answer_last_write_wins (e c q o1 o2 : String) (s : DB)
    (hs : e ≠ sampleExamId) (hex : examExists s e = true)
    (hq : questionExists s q = true)
    (ho1 : optionExists s o1 = true) (ho2 : optionExists s o2 = true)
    (hatt : ∀ a ∈ s.attempts, attemptMatches e c a = true → a.submitted = false)
    (hans : (s.answers.filter (ansKey e c q)).length ≤ 1) :
    select_option e q o1 c s = .ok (selStep e q o1 c s, "saved") ∧
    select_option e q o2 c (selStep e q o1 c s) =
      .ok (selStep e q o2 c (selStep e q o1 c s), "saved") ∧
    select_option e q o2 c (selStep e q o2 c (selStep e q o1 c s)) =
      .ok (selStep e q o2 c (selStep e q o2 c (selStep e q o1 c s)), "saved") ∧
    (selStep e q o2 c (selStep e q o2 c (selStep e q o1 c s))).answers.filter
      (ansKey e c q) = [⟨e, c, q, o2⟩] := by
  obtain ⟨hc1, hx1, hq1, ho1p, hat1, hf1⟩ :=
    select_exam_ok e q o1 c s hs hex hq ho1 hatt hans
  obtain ⟨hc2, hx2, hq2, ho2p, hat2, hf2⟩ :=
    select_exam_ok e q o2 c (selStep e q o1 c s) hs
      (by rw [examExists_congr hx1]; exact hex)
      (by rw [questionExists_congr hq1]; exact hq)
      (by rw [optionExists_congr ho1p]; exact ho2)
      hat1 (by simp [hf1])
  obtain ⟨hc3, _, _, _, _, hf3⟩ :=
    select_exam_ok e q o2 c (selStep e q o2 c (selStep e q o1 c s)) hs
      (by rw [examExists_congr hx2, examExists_congr hx1]; exact hex)
      (by rw [questionExists_congr hq2, questionExists_congr hq1]; exact hq)
      (by rw [optionExists_congr ho2p, optionExists_congr ho1p]; exact ho2)
      hat2 (by simp [hf2])
  exact ⟨hc1, hc2, hc3, hf3⟩

/-- C4 witness: o1 then o2 then o2 on the populated store. -/
theorem save_answer_last_write_wins_witness :
    select_option "e2" "q1" "o1" "cand" dbFull =
      .ok (selStep "e2" "q1" "o1" "cand" dbFull, "saved") ∧
    (selStep "e2" "q1" "o2" "cand" (selStep "e2" "q1" "o2" "cand"
      (selStep "e2" "q1" "o1" "cand" dbFull))).answers.filter
      (ansKey "e2" "cand" "q1") = [⟨"e2", "cand", "q1", "o2"⟩] := by
  have h := save_answer_last_write_wins "e2" "cand" "q1" "o1" "o2" dbFull
    (by decide) (by decide) (by decide) (by decide) (by decide) (by decide) (by decide)
  exact ⟨h.1, h.2.2.2⟩

/-! ## C5: the foreign keys veto saves against missing rows -/

/-- C5 counterexample: on the seeded store, a save by a candidate with no
attempt (hence not submitted) against a nonexistent exam and question does
not succeed — the attempts FOREIGN KEY raises an IntegrityError. -/
theorem save_missing_exam_claim_false :
    "e9" ≠ sampleExamId ∧
    examExists dbSeed "e9" = false ∧
    questionExists dbSeed "q9" = false ∧
    attemptSubmitted dbSeed "e9" "cand" = false ∧
    resOk (select_option "e9" "q9" "o9" "cand" dbSeed) = false ∧
    select_option "e9" "q9" "o9" "cand" dbSeed =
      .error (.integrity "FOREIGN KEY constraint failed") := by
  decide

/-- C5 (amended): select_option performs no explicit existence check, but
the per-connection PRAGMA foreign_keys=ON makes the database reject the
write: a save for an exam id with no exam row (and no pre-existing attempt
row) fails with an IntegrityError instead of succeeding, and any save that
does succeed referenced an existing option row. -/
theorem save_fk_enforced (e q o c : String) (s : DB) :
    ((e ≠ sampleExamId) → (∀ x ∈ s.exams, x.id ≠ e) →
      (∀ a ∈ s.attempts, ¬(a.exam_id = e ∧ a.candidate_id = c)) →
      select_option e q o c s = .error (.integrity "FOREIGN KEY constraint failed")) ∧
    (∀ s2 out, select_option e q o c s = .ok (s2, out) → optionExists s o = true) := by
  constructor
  · intro hs habs hatt
    have hfind : s.attempts.find? (attemptMatches e c) = none := by
      rw [List.find?_eq_none]
      intro a ha
      simp only [attemptMatches, decide_eq_true_eq]
      exact hatt a ha
    have hsub : attemptSubmitted s e c = false := by
      unfold attemptSubmitted findAttempt
      rw [hfind]
    have hany : s.attempts.any (attemptMatches e c) = false := by
      rw [List.any_eq_false]
      intro a ha
      simp only [attemptMatches, decide_eq_true_eq]
      exact hatt a ha
    have hexf : examExists s e = false := by
      unfold examExists
      rw [List.any_eq_false]
      intro x hx
      simp only [decide_eq_true_eq]
      exact habs x hx
    have hioa : insertOrIgnoreAttempt s e c =
        .error (.integrity "FOREIGN KEY constraint failed") := by
      unfold insertOrIgnoreAttempt
      rw [hany, hexf]
      rfl
    unfold select_option
    rw [if_neg hs, hsub]
    simp [hioa]
  · intro s2 out h
    unfold select_option at h
    by_cases hs : e = sampleExamId
    · rw [if_pos hs] at h; exact Except.noConfusion h
    · rw [if_neg hs] at h
      by_cases hsubm : attemptSubmitted s e c = true
      · rw [if_pos hsubm] at h; exact Except.noConfusion h
      · rw [if_neg hsubm] at h
        cases hioa : insertOrIgnoreAttempt s e c with
        | error err => rw [hioa] at h; exact Except.noConfusion h
        | ok s1 =>
          rw [hioa] at h
          obtain ⟨_, _, ho1, _, _, _⟩ := ioa_ok_parts hioa
          cases hup : upsertAnswer s1 e c q o with
          | error err => simp [hup] at h
          | ok s2' =>
            unfold upsertAnswer at hup
            by_cases hk : s1.answers.any (ansKey e c q) = true
            · rw [if_pos hk] at hup
              by_cases hopt : optionExists s1 o = true
              · rwa [optionExists_congr ho1] at hopt
              · rw [if_neg hopt] at hup; exact Except.noConfusion hup
            · rw [if_neg hk] at hup
              by_cases hc : (examExists s1 e && questionExists s1 q && optionExists s1 o) = true
              · simp only [Bool.and_eq_true] at hc
                have hopt := hc.2
                rwa [optionExists_congr ho1] at hopt
              · rw [if_neg hc] at hup; exact Except.noConfusion hup

/-- C5 amended-claim witness: the concrete failing save of the
counterexample, derived from the amended theorem. -/
theorem save_fk_enforced_witness :
    select_option "e9" "q9" "o9" "cand" dbSeed =
      .error (.integrity "FOREIGN KEY constraint failed") :=
  (save_fk_enforced "e9" "q9" "o9" "cand" dbSeed).1 (by decide) (by decide) (by decide)

/-! ## C6: get_state isolates candidates -/

lemma lookup_filter_map (l : List Answer) (E A Q oA : String)
    (hnd : (l.map (fun a => (a.exam_id, a.candidate_id, a.question_id))).Nodup)
    (hmem : (⟨E, A, Q, oA⟩ : Answer) ∈ l) :
    ((l.filter (fun a => decide (a.exam_id = E ∧ a.candidate_id = A))).map
      (fun a => (a.question_id, a.option_id))).lookup Q = some oA := by
  induction l with
  | nil => cases hmem
  | cons h t ih =>
    simp only [List.map_cons, List.nodup_cons] at hnd
    rcases List.mem_cons.1 hmem with heq | hmem'
    · rw [← heq]
      simp [List.filter_cons, List.lookup]
    · have hkeymem : (E, A, Q) ∈ t.map (fun a => (a.exam_id, a.candidate_id, a.question_id)) := by
        refine List.mem_map.2 ⟨⟨E, A, Q, oA⟩, hmem', rfl⟩
      by_cases hf : (h.exam_id = E ∧ h.candidate_id = A)
      · have hqne : h.question_id ≠ Q := by
          intro hqq
          exact hnd.1 (by rw [hf.1, hf.2, hqq]; exact hkeymem)
        have hbeq : (Q == h.question_id) = false := by
          simp [hqne.symm]
        simp only [List.filter_cons, hf, decide_eq_true_eq, and_self, if_pos, List.map_cons]
        rw [List.lookup_cons]
        simp only [hbeq]
        exact ih hnd.2 hmem'
      · simp only [List.filter_cons]
        rw [if_neg (by simpa using hf)]
        exact ih hnd.2 hmem'

/-- Every answer get_state returns for (exam, candidate) is that
candidate's own stored row. -/
lemma get_state_provenance (E C : String) (s : DB) :
    (get_state E C s).answers.all
      (fun p => decide ((⟨E, C, p.1, p.2⟩ : Answer) ∈ s.answers)) = true := by
  rw [List.all_eq_true]
  intro p hp
  simp only [get_state, List.mem_map] at hp
  obtain ⟨a, ha, rfl⟩ := hp
  obtain ⟨hmem, hpred⟩ := List.mem_filter.1 ha
  simp only [decide_eq_true_eq] at hpred ⊢
  obtain ⟨h1, h2⟩ := hpred
  cases a
  simp only at h1 h2
  rw [h1, h2] at hmem
  exact hmem

/-- C6: when candidates A and B each stored a different option for question
Q of exam E, get_state returns to each exactly their own option, and every
answer it returns belongs to the requesting candidate. -/
theorem get_state_candidate_isolated (E A B Q oA oB : String) (s : DB)
    (hnd : (s.answers.map (fun a => (a.exam_id, a.candidate_id, a.question_id))).Nodup)
    (hA : (⟨E, A, Q, oA⟩ : Answer) ∈ s.answers)
    (hB : (⟨E, B, Q, oB⟩ : Answer) ∈ s.answers)
    (hAB : A ≠ B) (hoo : oA ≠ oB) :
    (get_state E A s).answers.lookup Q = some oA ∧
    (get_state E B s).answers.lookup Q = some oB ∧
    (get_state E A s).answers.all
      (fun p => decide ((⟨E, A, p.1, p.2⟩ : Answer) ∈ s.answers)) = true ∧
    (get_state E B s).answers.all
      (fun p => decide ((⟨E, B, p.1, p.2⟩ : Answer) ∈ s.answers)) = true :=
  ⟨lookup_filter_map s.answers E A Q oA hnd hA,
   lookup_filter_map s.answers E B Q oB hnd hB,
   get_state_provenance E A s,
   get_state_provenance E B s⟩

/-- C6 witness: alice and bob each see only their own option on dbFull. -/
theorem get_state_candidate_isolated_witness :
    (get_state "e2" "alice" dbFull).answers.lookup "q1" = some "o1" ∧
    (get_state "e2" "bob" dbFull).answers.lookup "q1" = some "o2" := by
  have h := get_state_candidate_isolated "e2" "alice" "bob" "q1" "o1" "o2" dbFull
    (by decide) (by decide) (by decide) (by decide) (by decide)
  exact ⟨h.1, h.2.1⟩

/-! ## C8: deleting a question cascades to options and answers -/

/-- The committed state of a successful delete_question. -/
def cascadeDelete (qid : String) (s : DB) : DB :=
  { s with
    answers := s.answers.filter (fun a => !(decide (a.question_id = qid))),
    options := s.options.filter (fun o => !(decide (o.question_id = qid))),
    questions := s.questions.filter (fun q => !(decide (q.id = qid))) }

lemma delete_question_ok (qid c : String) {s : DB} {row : Question}
    (hfind : s.questions.find? (fun x => decide (x.id = qid)) = some row)
    (hs : row.exam_id ≠ sampleExamId) :
    delete_question qid c s = .ok (cascadeDelete qid s, "deleted") := by
  unfold delete_question cascadeDelete
  simp only [hfind, if_neg hs]

/-- C8: delete_question on an existing question outside the sample exam
succeeds and removes the question, all its options and all answers for it,
so get_state afterwards reports no answer for that question, for any
candidate and exam. -/
theorem delete_question_cascades (qid c e' c' : String) (s : DB) (row : Question)
    (hfind : s.questions.find? (fun x => decide (x.id = qid)) = some row)
    (hs : row.exam_id ≠ sampleExamId) :
    delete_question qid c s = .ok (delStep qid c s, "deleted") ∧
    (delStep qid c s).questions.all (fun qu => !(decide (qu.id = qid))) = true ∧
    (delStep qid c s).options.all (fun o => !(decide (o.question_id = qid))) = true ∧
    (delStep qid c s).answers.all (fun a => !(decide (a.question_id = qid))) = true ∧
    (get_state e' c' (delStep qid c s)).answers.all
      (fun p => !(decide (p.1 = qid))) = true := by
  have hdel := delete_question_ok qid c hfind hs
  have hstep : delStep qid c s = cascadeDelete qid s := by
    simp [delStep, afterState, hdel]
  rw [hstep]
  refine ⟨by rw [hdel], ?_, ?_, ?_, ?_⟩
  · rw [List.all_eq_true]
    intro qu hqu
    exact (List.mem_filter.1 hqu).2
  · rw [List.all_eq_true]
    intro o hho
    exact (List.mem_filter.1 hho).2
  · rw [List.all_eq_true]
    intro a ha
    exact (List.mem_filter.1 ha).2
  · rw [List.all_eq_true]
    intro p hp
    simp only [get_state, List.mem_map] at hp
    obtain ⟨a, ha, rfl⟩ := hp
    have hmem : a ∈ (cascadeDelete qid s).answers := (List.mem_filter.1 ha).1
    exact (List.mem_filter.1 hmem).2

/-- C8 witness: deleting "q1" from dbFull removes its options and both
candidates' answers. -/
theorem delete_question_cascades_witness :
    delete_question "q1" "cand" dbFull = .ok (delStep "q1" "cand" dbFull, "deleted") ∧
    (get_state "e2" "alice" (delStep "q1" "cand" dbFull)).answers.all
      (fun p => !(decide (p.1 = "q1"))) = true := by
  have h := delete_question_cascades "q1" "cand" "e2" "alice" dbFull
    ⟨"q1", "e2", "What is 2+2?", "en"⟩ (by decide) (by decide)
  exact ⟨h.1, h.2.2.2.2⟩

/-! ## Lemmas: which tables each candidate operation can touch -/

lemma upsert_ok_parts {s1 s2 : DB} {e c q o : String}
    (h : upsertAnswer s1 e c q o = .ok s2) :
    s2.exams = s1.exams ∧ s2.questions = s1.questions ∧ s2.options = s1.options ∧
    s2.attempts = s1.attempts := by
  unfold upsertAnswer at h
  by_cases hk : s1.answers.any (ansKey e c q) = true
  · rw [if_pos hk] at h
    by_cases ho : optionExists s1 o = true
    · rw [if_pos ho] at h
      have h' := Except.ok.inj h
      subst h'
      exact ⟨rfl, rfl, rfl, rfl⟩
    · rw [if_neg ho] at h; exact Except.noConfusion h
  · rw [if_neg hk] at h
    by_cases hc : (examExists s1 e && questionExists s1 q && optionExists s1 o) = true
    · rw [if_pos hc] at h
      have h' := Except.ok.inj h
      subst h'
      exact ⟨rfl, rfl, rfl, rfl⟩
    · rw [if_neg hc] at h; exact Except.noConfusion h

lemma select_ok_parts {e q o c : String} {s s2 : DB} {out : String}
    (h : select_option e q o c s = .ok (s2, out)) :
    s2.questions = s.questions ∧ s2.options = s.options := by
  unfold select_option at h
  by_cases hs : e = sampleExamId
  · rw [if_pos hs] at h; exact Except.noConfusion h
  · rw [if_neg hs] at h
    by_cases hsubm : attemptSubmitted s e c = true
    · rw [if_pos hsubm] at h; exact Except.noConfusion h
    · rw [if_neg hsubm] at h
      cases hioa : insertOrIgnoreAttempt s e c with
      | error err => rw [hioa] at h; exact Except.noConfusion h
      | ok s1 =>
        rw [hioa] at h
        obtain ⟨_, hq1, ho1, _, _, _⟩ := ioa_ok_parts hioa
        cases hup : upsertAnswer s1 e c q o with
        | error err => simp [hup] at h
        | ok s2' =>
          simp only [hup] at h
          have hpair := Except.ok.inj h
          have hs2 : s2' = s2 := congrArg Prod.fst hpair
          obtain ⟨_, uq, uo, _⟩ := upsert_ok_parts hup
          subst hs2
          exact ⟨by rw [uq, hq1], by rw [uo, ho1]⟩

lemma submit_ok_parts {e c : String} {s s2 : DB} {out : String}
    (h : submit_exam e c s = .ok (s2, out)) :
    s2.questions = s.questions ∧ s2.options = s.options := by
  unfold submit_exam at h
  by_cases hs : e = sampleExamId
  · rw [if_pos hs] at h; exact Except.noConfusion h
  · rw [if_neg hs] at h
    cases hioa : insertOrIgnoreAttempt s e c with
    | error err => rw [hioa] at h; exact Except.noConfusion h
    | ok s1 =>
      rw [hioa] at h
      have hpair := Except.ok.inj h
      have hst : markSubmitted e c s1 = s2 := congrArg Prod.fst hpair
      obtain ⟨_, hq1, ho1, _, _, _⟩ := ioa_ok_parts hioa
      rw [← hst]
      exact ⟨hq1, ho1⟩

lemma sample_struct_congr {s s' : DB} (hq : s'.questions = s.questions)
    (ho : s'.options = s.options) :
    sampleQs s' = sampleQs s ∧ sampleOpts s' = sampleOpts s := by
  have hiso : isSampleOpt s' = isSampleOpt s := by
    funext o
    unfold isSampleOpt
    rw [hq]
  constructor
  · unfold sampleQs; rw [hq]
  · unfold sampleOpts; rw [ho, hiso]

lemma create_exam_qo (t nid c : String) (s : DB) :
    (afterState (create_exam t nid c s) s).questions = s.questions ∧
    (afterState (create_exam t nid c s) s).options = s.options := by
  by_cases h1 : 25 ≤ (s.exams.filter (fun x => decide (x.creator_id = c))).length
  · simp [create_exam, afterState, h1]
  · by_cases h2 : s.exams.any (fun x => decide (x.id = nid)) = true
    · simp [create_exam, afterState, h1, h2]
    · simp [create_exam, afterState, h1, h2]

lemma activate_exam_qo (e c : String) (s : DB) :
    (afterState (activate_exam e c s) s).questions = s.questions ∧
    (afterState (activate_exam e c s) s).options = s.options := by
  by_cases hs : e = sampleExamId
  · simp [activate_exam, afterState, hs]
  · rw [activate_exam_ok e c s hs]
    simp [afterState, setFlag]

lemma select_option_qo (e q o c : String) (s : DB) :
    (afterState (select_option e q o c s) s).questions = s.questions ∧
    (afterState (select_option e q o c s) s).options = s.options := by
  cases hres : select_option e q o c s with
  | error err => simp [afterState, hres]
  | ok p =>
    obtain ⟨s2, out⟩ := p
    have := select_ok_parts hres
    simpa [afterState, hres] using this

lemma submit_exam_qo (e c : String) (s : DB) :
    (afterState (submit_exam e c s) s).questions = s.questions ∧
    (afterState (submit_exam e c s) s).options = s.options := by
  cases hres : submit_exam e c s with
  | error err => simp [afterState, hres]
  | ok p =>
    obtain ⟨s2, out⟩ := p
    have := submit_ok_parts hres
    simpa [afterState, hres] using this

lemma insertOptionsLoop_ok :
    ∀ (ps : List (String × OptionIn)) (qid : String) (s s2 : DB),
    insertOptionsLoop ps qid s = .ok s2 →
    s2.exams = s.exams ∧ s2.questions = s.questions ∧ s2.attempts = s.attempts ∧
    s2.answers = s.answers ∧
    ∃ extra : List ExamOption, s2.options = s.options ++ extra ∧
      ∀ o ∈ extra, o.question_id = qid := by
  intro ps
  induction ps with
  | nil =>
    intro qid s s2 h
    have h' := Except.ok.inj h
    subst h'
    exact ⟨rfl, rfl, rfl, rfl, [], by simp, by simp⟩
  | cons p rest ih =>
    intro qid s s2 h
    obtain ⟨oid, opt⟩ := p
    unfold insertOptionsLoop at h
    by_cases h1 : s.options.any (fun x => decide (x.id = oid)) = true
    · rw [if_pos h1] at h; exact Except.noConfusion h
    · rw [if_neg h1] at h
      by_cases h2 : questionExists s qid = true
      · rw [if_pos h2] at h
        obtain ⟨hx, hq, hat, hans, extra, hopt, hall⟩ := ih qid _ s2 h
        refine ⟨hx, hq, hat, hans, ⟨oid, qid, opt.text, opt.is_correct⟩ :: extra, ?_, ?_⟩
        · rw [hopt]
          simp
        · intro o ho
          rcases List.mem_cons.1 ho with rfl | ho
          · rfl
          · exact hall o ho
      · rw [if_neg h2] at h; exact Except.noConfusion h

lemma addq_ok_inv {e t lang : String} {opts : List OptionIn} {qid : String}
    {oids : List String} {c : String} {s : DB} {p : DB × String}
    (h : add_question_with_options e t lang opts qid oids c s = .ok p) :
    e ≠ sampleExamId ∧
    (∀ qu ∈ s.questions, qu.id ≠ qid) ∧
    insertOptionsLoop (oids.zip opts) qid
      { s with questions := s.questions ++ [⟨qid, e, t, lang⟩] } = .ok p.1 := by
  unfold add_question_with_options at h
  by_cases h1 : e = sampleExamId
  · rw [if_pos h1] at h; exact Except.noConfusion h
  · rw [if_neg h1] at h
    by_cases h2 : opts.length < 2
    · rw [if_pos h2] at h; exact Except.noConfusion h
    · rw [if_neg h2] at h
      by_cases h3 : 6 < opts.length
      · rw [if_pos h3] at h; exact Except.noConfusion h
      · rw [if_neg h3] at h
        by_cases h4 : (!(opts.any (fun o => o.is_correct))) = true
        · rw [if_pos h4] at h; exact Except.noConfusion h
        · rw [if_neg h4] at h
          by_cases h5 : 25 ≤ (s.questions.filter (fun q => decide (q.exam_id = e))).length
          · rw [if_pos h5] at h; exact Except.noConfusion h
          · rw [if_neg h5] at h
            by_cases h6 : (!(examExists s e)) = true
            · rw [if_pos h6] at h; exact Except.noConfusion h
            · rw [if_neg h6] at h
              by_cases h7 : s.questions.any (fun x => decide (x.id = qid)) = true
              · rw [if_pos h7] at h; exact Except.noConfusion h
              · rw [if_neg h7] at h
                refine ⟨h1, ?_, ?_⟩
                · intro qu hqu hid
                  exact h7 (List.any_eq_true.2 ⟨qu, hqu, by simp [hid]⟩)
                · cases hloop : insertOptionsLoop (oids.zip opts) qid
                      { s with questions := s.questions ++ [⟨qid, e, t, lang⟩] } with
                  | error err => rw [hloop] at h; exact Except.noConfusion h
                  | ok s2 =>
                    rw [hloop] at h
                    have hpair := Except.ok.inj h
                    rw [← hpair]

lemma addq_preserves (e t lang : String) (opts : List OptionIn) (qid : String)
    (oids : List String) (c : String) (s : DB) :
    sampleQs (afterState (add_question_with_options e t lang opts qid oids c s) s) =
      sampleQs s ∧
    sampleOpts (afterState (add_question_with_options e t lang opts qid oids c s) s) =
      sampleOpts s := by
  cases hres : add_question_with_options e t lang opts qid oids c s with
  | error err => simp [afterState, hres]
  | ok p =>
    obtain ⟨hsne, hpk, hloop⟩ := addq_ok_inv hres
    obtain ⟨_, hq2, _, _, extra, hopt2, hall⟩ :=
      insertOptionsLoop_ok (oids.zip opts) qid _ p.1 hloop
    have hafter : afterState (Except.ok p : Except Err (DB × String)) s = p.1 := rfl
    rw [hafter]
    have hq2' : p.1.questions = s.questions ++ [⟨qid, e, t, lang⟩] := hq2
    have hopt2' : p.1.options = s.options ++ extra := hopt2
    have hqs : sampleQs p.1 = sampleQs s := by
      unfold sampleQs
      rw [hq2', List.filter_append]
      have : ([(⟨qid, e, t, lang⟩ : Question)].filter
          (fun q => decide (q.exam_id = sampleExamId))) = [] := by
        simp [hsne]
      rw [this, List.append_nil]
    have hiso : ∀ o : ExamOption, isSampleOpt p.1 o = isSampleOpt s o := by
      intro o
      unfold isSampleOpt
      rw [hq2', List.any_append]
      have : ([(⟨qid, e, t, lang⟩ : Question)].any
          (fun qu => decide (qu.id = o.question_id ∧ qu.exam_id = sampleExamId))) = false := by
        simp [hsne]
      rw [this, Bool.or_false]
    refine ⟨hqs, ?_⟩
    unfold sampleOpts
    rw [hopt2', List.filter_append]
    have hextra : extra.filter (isSampleOpt p.1) = [] := by
      rw [List.filter_eq_nil_iff]
      intro o ho hso
      rw [hiso o] at hso
      obtain ⟨qu, hqu, hd⟩ := List.any_eq_true.1 hso
      simp only [decide_eq_true_eq] at hd
      exact hpk qu hqu (by rw [hd.1, hall o ho])
    rw [hextra, List.append_nil]
    exact List.filter_congr (fun o _ => hiso o)

lemma delete_qo_preserves (qid cD : String) (s : DB)
    (hnd : (s.questions.map (fun q => q.id)).Nodup) :
    sampleQs (afterState (delete_question qid cD s) s) = sampleQs s ∧
    sampleOpts (afterState (delete_question qid cD s) s) = sampleOpts s := by
  cases hfind : s.questions.find? (fun x => decide (x.id = qid)) with
  | none =>
    simp [delete_question, afterState, hfind]
  | some row =>
    by_cases hrow : row.exam_id = sampleExamId
    · simp [delete_question, afterState, hfind, hrow]
    · have hdel := delete_question_ok qid cD hfind hrow
      have hstep : afterState (delete_question qid cD s) s = cascadeDelete qid s := by
        simp [afterState, hdel]
      rw [hstep]
      have hrowmem : row ∈ s.questions := List.mem_of_find?_eq_some hfind
      have hrowid : row.id = qid := by
        have := List.find?_some hfind
        simpa using this
      have hkey : ∀ qu ∈ s.questions, qu.exam_id = sampleExamId → qu.id ≠ qid := by
        intro qu hqu hex hqid
        have hqr : qu = row :=
          List.inj_on_of_nodup_map hnd hqu hrowmem (by rw [hqid, hrowid])
        rw [hqr] at hex
        exact hrow hex
      constructor
      · show ((s.questions.filter (fun q => !(decide (q.id = qid)))).filter
          (fun q => decide (q.exam_id = sampleExamId))) = sampleQs s
        rw [List.filter_filter]
        apply List.filter_congr
        intro qu hqu
        by_cases hex : qu.exam_id = sampleExamId
        · simp [hex, hkey qu hqu hex]
        · simp [hex]
      · show ((s.options.filter (fun o => !(decide (o.question_id = qid)))).filter
          (isSampleOpt (cascadeDelete qid s))) = sampleOpts s
        rw [List.filter_filter]
        apply List.filter_congr
        intro o ho
        by_cases hso : isSampleOpt s o = true
        · obtain ⟨qu, hqu, hd⟩ := List.any_eq_true.1 hso
          simp only [decide_eq_true_eq] at hd
          have hqune : qu.id ≠ qid := hkey qu hqu hd.2
          have hone : o.question_id ≠ qid := by
            rw [← hd.1]
            exact hqune
          have hany' : isSampleOpt (cascadeDelete qid s) o = true := by
            unfold isSampleOpt cascadeDelete
            exact List.any_eq_true.2 ⟨qu, List.mem_filter.2 ⟨hqu, by simp [hqune]⟩,
              by simp [hd.1, hd.2]⟩
          rw [hso, hany']
          simp [hone]
        · have hsof : isSampleOpt s o = false := Bool.eq_false_iff.mpr hso
          have hany' : isSampleOpt (cascadeDelete qid s) o = false := by
            unfold isSampleOpt cascadeDelete
            rw [List.any_eq_false]
            intro qu hqu hd
            exact hso (List.any_eq_true.2 ⟨qu, (List.mem_filter.1 hqu).1, hd⟩)
          rw [hsof, hany']
          simp

/-! ## C2: immutability of the sample exam -/

/-- C2 counterexample: the sample exam is seeded active; activating another
exam is a candidate operation that succeeds and clears the sample exam's
active flag — its activation state is mutated even though the operation did
not target the sample exam id. -/
theorem activate_other_exam_clears_sample_active :
    dbTwo.exams.all (fun x => !(decide (x.id = sampleExamId)) || x.active) = true ∧
    resOk (activate_exam "e2" "cand" dbTwo) = true ∧
    (activateStep ("e2", "cand") dbTwo).exams.all
      (fun x => !(decide (x.id = sampleExamId)) || !x.active) = true := by
  decide

/-- C2 (amended): the sample exam's questions and options are never mutated
by any candidate operation, and addQuestion, activate, select, submit
against the sample exam id — and deleteQuestion against a sample-exam
question — always fail with HTTP 400; the sample exam's activation flag,
however, is cleared whenever another exam is activated. -/
theorem sample_exam_structure_immutable (s : DB)
    (hnd : (s.questions.map (fun q => q.id)).Nodup)
    (e q o c t lang nid qid cD qidD : String) (opts : List OptionIn)
    (oids : List String) (row : Question) :
    add_question_with_options sampleExamId t lang opts qid oids c s =
      .error (.http 400 "Modifications to the sample exam are not allowed") ∧
    activate_exam sampleExamId c s =
      .error (.http 400 "Modifications to the sample exam are not allowed") ∧
    select_option sampleExamId q o c s =
      .error (.http 400 "Modifications to the sample exam are not allowed") ∧
    submit_exam sampleExamId c s =
      .error (.http 400 "Modifications to the sample exam are not allowed") ∧
    (s.questions.find? (fun x => decide (x.id = qidD)) = some row →
      row.exam_id = sampleExamId →
      delete_question qidD cD s =
        .error (.http 400 "Modifications to the sample exam are not allowed")) ∧
    (sampleQs (afterState (create_exam t nid c s) s) = sampleQs s ∧
      sampleOpts (afterState (create_exam t nid c s) s) = sampleOpts s) ∧
    (sampleQs (afterState (add_question_with_options e t lang opts qid oids c s) s) =
        sampleQs s ∧
      sampleOpts (afterState (add_question_with_options e t lang opts qid oids c s) s) =
        sampleOpts s) ∧
    (sampleQs (afterState (delete_question qidD cD s) s) = sampleQs s ∧
      sampleOpts (afterState (delete_question qidD cD s) s) = sampleOpts s) ∧
    (sampleQs (afterState (activate_exam e c s) s) = sampleQs s ∧
      sampleOpts (afterState (activate_exam e c s) s) = sampleOpts s) ∧
    (sampleQs (afterState (select_option e q o c s) s) = sampleQs s ∧
      sampleOpts (afterState (select_option e q o c s) s) = sampleOpts s) ∧
    (sampleQs (afterState (submit_exam e c s) s) = sampleQs s ∧
      sampleOpts (afterState (submit_exam e c s) s) = sampleOpts s) ∧
    (e ≠ sampleExamId →
      (afterState (activate_exam e c s) s).exams.all
        (fun x => !(decide (x.id = sampleExamId)) || !x.active) = true) := by
  refine ⟨?_, ?_, ?_, ?_, ?_, ?_, ?_, ?_, ?_, ?_, ?_, ?_⟩
  · unfold add_question_with_options
    rw [if_pos rfl]
  · unfold activate_exam
    rw [if_pos rfl]
  · unfold select_option
    rw [if_pos rfl]
  · unfold submit_exam
    rw [if_pos rfl]
  · intro hf hrow
    unfold delete_question
    simp only [hf, if_pos hrow]
  · have h := create_exam_qo t nid c s
    exact sample_struct_congr h.1 h.2
  · exact addq_preserves e t lang opts qid oids c s
  · exact delete_qo_preserves qidD cD s hnd
  · have h := activate_exam_qo e c s
    exact sample_struct_congr h.1 h.2
  · have h := select_option_qo e q o c s
    exact sample_struct_congr h.1 h.2
  · have h := submit_exam_qo e c s
    exact sample_struct_congr h.1 h.2
  · intro hse
    have hstep : afterState (activate_exam e c s) s = setFlag e s := by
      simp [afterState, activate_exam_ok e c s hse]
    rw [hstep]
    rw [List.all_eq_true]
    intro x hx
    simp only [setFlag, List.mem_map] at hx
    obtain ⟨y, _, rfl⟩ := hx
    by_cases hy : y.id = sampleExamId
    · have hne : ¬sampleExamId = e := fun hc => hse hc.symm
      simp [hy, hne]
    · simp [hy]

/-- C2 amended-claim witness on the populated store. -/
theorem sample_exam_structure_immutable_witness :
    activate_exam sampleExamId "cand" dbFull =
      .error (.http 400 "Modifications to the sample exam are not allowed") ∧
    delete_question "qs" "cand" dbFull =
      .error (.http 400 "Modifications to the sample exam are not allowed") ∧
    sampleQs (afterState (activate_exam "e2" "cand" dbFull) dbFull) = sampleQs dbFull := by
  have h := sample_exam_structure_immutable dbFull (by decide) "e2" "q1" "o2" "cand"
    "T" "en" "n1" "qn" "cand" "qs" [⟨"x", true⟩, ⟨"y", false⟩] ["oa", "ob"]
    ⟨"qs", "exam1", "What is 2+2?", "en"⟩
  exact ⟨h.2.1, h.2.2.2.2.1 (by decide) (by decide), h.2.2.2.2.2.2.2.2.1.1⟩

end GitaExam
